import Mathlib

/-
  Verification of the kinematics interpolation core of `ale` (src/src/ale.cpp).

  The C++ source computes with `double`; we embed it shallowly over an
  arbitrary linear ordered field `K` (instantiated at `ℚ` for concrete
  evaluations), i.e. exact arithmetic.  Thrown `std::invalid_argument`
  exceptions (and aborting GSL error-handler invocations) are modelled as
  `Except AleError` results.  The square root used by the quaternion
  normalizer (Eigen's `normalize`) is passed in as an explicit function
  `sqrtFn : K → K`; theorems constrain it by the defining property of the
  real square root at the values where it is actually applied.
-/

set_option linter.unusedSectionVars false

namespace ale

/-- Error classes of the core, one per distinct thrown/reported error in
`ale.cpp` (plus the two errors raised inside the GSL interpolation library
by `gsl_interp_alloc` / `gsl_interp_init`). -/
inductive AleError where
  /-- Thrown as "Invalid input positions, expected three vectors." -/
  | invalidPositionsShape
  /-- Thrown as "Invalid input coeffs, expected three vectors." -/
  | invalidCoeffsShape
  /-- Thrown as "Invalid input rotations, expected four vectors." -/
  | invalidRotationsShape
  /-- Thrown as "Invalid input coeffs, must be non-empty." -/
  | emptyCoeffs
  /-- Thrown as "Invalid derivative degree, must be non-negative." -/
  | negativeDerivative
  /-- Thrown as "At least two points must be input to interpolate over." -/
  | insufficientPoints
  /-- Thrown as "Invalid gsl_interp_type data, must have the same number of points as times." -/
  | lengthMismatch
  /-- Thrown as "Invalid gsl_interp_type time, outside of input times." -/
  | timeOutOfRange
  /-- Thrown as "Invalid derivitive option, must be 0, 1 or 2." -/
  | invalidDerivative
  /-- GSL: "insufficient number of points for interpolation type"
  (raised by gsl_interp_alloc when the sample count is below the
  method's minimum size: 2 for linear, 3 for cspline). -/
  | gslInsufficientPoints
  /-- GSL: "x values must be strictly increasing"
  (raised by gsl_interp_init). -/
  | gslNotIncreasing
deriving DecidableEq, Repr

/-- Modelled from the spec: the interpolation method selector
\x7blinear, cubic-spline\x7d declared in ale.h (not under src/); its order
matches the array `interp_methods[] = {gsl_interp_linear, gsl_interp_cspline}`
indexed by the enum in ale.cpp. -/
inductive interpolation where
  | linear
  | spline
deriving DecidableEq, Repr

/-- Minimum number of sample points required by the selected GSL
interpolation type (`gsl_interp_linear.min_size = 2`,
`gsl_interp_cspline.min_size = 3`). -/
def minSize : interpolation → ℕ
  | .linear => 2
  | .spline => 3

/-- Discriminator for error results of the core. -/
def isErr {α : Type} : Except AleError α → Bool
  | .error _ => true
  | .ok _ => false

instance {ε α : Type} [DecidableEq ε] [DecidableEq α] :
    DecidableEq (Except ε α) := fun a b =>
  match a, b with
  | .ok x, .ok y => decidable_of_iff (x = y) (by simp)
  | .error x, .error y => decidable_of_iff (x = y) (by simp)
  | .ok _, .error _ => isFalse (by simp)
  | .error _, .ok _ => isFalse (by simp)

variable {K : Type} [LinearOrderedField K]

/-- The strict-monotonicity scan performed by `gsl_interp_init` on the
timestamp array: `for (i = 1; i < size; i++) if (!(x[i-1] < x[i])) error`. -/
def strictlyIncreasing : List K → Bool
  | [] => true
  | [_] => true
  | a :: b :: t => decide (a < b) && strictlyIncreasing (b :: t)

/-- The binary-search loop of `gsl_interp_bsearch`, with the loop trip
count made explicit as structural fuel (the gap `ihi - ilo` shrinks on
every iteration, so `ihi - ilo` units of fuel always suffice). -/
def bsearchAux (xa : List K) (x : K) : ℕ → ℕ → ℕ → ℕ
  | 0, ilo, _ => ilo
  | fuel + 1, ilo, ihi =>
    if ilo + 1 < ihi then
      let i := (ihi + ilo) / 2
      if x < xa.getD i 0 then bsearchAux xa x fuel ilo i
      else bsearchAux xa x fuel i ihi
    else ilo

/-- Models `gsl_interp_bsearch xa x ilo ihi`: returns the index `i` of the
bracketing interval, i.e. `xa[i] <= x < xa[i+1]` (clamped to `ihi - 1`
when `x` is at or beyond `xa[ihi]`).  A fresh `gsl_interp_accel` performs
exactly this search on its first lookup. -/
def gslInterpBsearch (xa : List K) (x : K) (ilo ihi : ℕ) : ℕ :=
  bsearchAux xa x (ihi - ilo) ilo ihi

/-- Models `gsl_linalg_solve_symm_tridiag` (LDLᵀ factorization of a
symmetric tridiagonal system followed by forward/back substitution), used
by the cubic-spline setup.  The claims proved below do not depend on the
solution values, only on the shape of the spline evaluation formulas. -/
def solveSymmTridiag (diag offdiag b : List K) : List K := Id.run do
  let N := diag.length
  if N = 0 then return []
  let mut alpha : Array K := Array.mkArray N 0
  let mut gamma : Array K := Array.mkArray N 0
  let mut z : Array K := Array.mkArray N 0
  alpha := alpha.setD 0 (diag.getD 0 0)
  gamma := gamma.setD 0 (offdiag.getD 0 0 / diag.getD 0 0)
  for j in List.range (N - 2) do
    let i := j + 1
    let a := diag.getD i 0 - offdiag.getD (i - 1) 0 * gamma.getD (i - 1) 0
    alpha := alpha.setD i a
    gamma := gamma.setD i (offdiag.getD i 0 / a)
  if N > 1 then
    alpha := alpha.setD (N - 1)
      (diag.getD (N - 1) 0 - offdiag.getD (N - 2) 0 * gamma.getD (N - 2) 0)
  z := z.setD 0 (b.getD 0 0)
  for j in List.range (N - 1) do
    let i := j + 1
    z := z.setD i (b.getD i 0 - gamma.getD (i - 1) 0 * z.getD (i - 1) 0)
  let mut c : Array K := Array.mkArray N 0
  for i in List.range N do
    c := c.setD i (z.getD i 0 / alpha.getD i 0)
  let mut x : Array K := Array.mkArray N 0
  x := x.setD (N - 1) (c.getD (N - 1) 0)
  for j in List.range (N - 1) do
    let i := N - 2 - j
    x := x.setD i (c.getD i 0 - gamma.getD i 0 * x.getD (i + 1) 0)
  return x.toList

/-- Models GSL `cspline_init` for the natural cubic spline: sets up and
solves the tridiagonal system for the `c` coefficient array
(`c[0] = c[n-1] = 0`, interior values from the second-derivative system). -/
def csplineC (times points : List K) : List K := Id.run do
  let n := points.length
  if n < 3 then return List.replicate n 0
  let sysSize := n - 2
  let mut offdiag : Array K := Array.mkArray sysSize 0
  let mut diag : Array K := Array.mkArray sysSize 0
  let mut g : Array K := Array.mkArray sysSize 0
  for i in List.range sysSize do
    let h_i := times.getD (i + 1) 0 - times.getD i 0
    let h_ip1 := times.getD (i + 2) 0 - times.getD (i + 1) 0
    let ydiff_i := points.getD (i + 1) 0 - points.getD i 0
    let ydiff_ip1 := points.getD (i + 2) 0 - points.getD (i + 1) 0
    let g_i := if h_i ≠ 0 then 1 / h_i else 0
    let g_ip1 := if h_ip1 ≠ 0 then 1 / h_ip1 else 0
    offdiag := offdiag.setD i h_ip1
    diag := diag.setD i (2 * (h_ip1 + h_i))
    g := g.setD i (3 * (ydiff_ip1 * g_ip1 - ydiff_i * g_i))
  let sol : List K :=
    if sysSize = 1 then [g.getD 0 0 / diag.getD 0 0]
    else solveSymmTridiag diag.toList offdiag.toList g.toList
  let mut c : Array K := Array.mkArray n 0
  for i in List.range sysSize do
    c := c.setD (i + 1) (sol.getD i 0)
  return c.toList

/-- Models the GSL evaluation step of `interpolate` after construction:
`gsl_interp_eval` (`d = 0`), `gsl_interp_eval_deriv` (`d = 1`) and
`gsl_interp_eval_deriv2` (`d = 2`) for the linear and cspline types.
Both types locate the bracketing interval with the accelerated binary
search and then evaluate a closed-form expression on that interval
(GSL `linear_eval*` / `cspline_eval*` with `coeff_calc`). -/
def gslEvalAt (interp : interpolation) (times points : List K) (x : K) (d : ℕ) : K :=
  let n := times.length
  let idx := gslInterpBsearch times x 0 (n - 1)
  let x_lo := times.getD idx 0
  let x_hi := times.getD (idx + 1) 0
  let dx := x_hi - x_lo
  match interp with
  | .linear =>
    if 0 < dx then
      let y_lo := points.getD idx 0
      let y_hi := points.getD (idx + 1) 0
      let dy := y_hi - y_lo
      match d with
      | 0 => y_lo + (x - x_lo) / dx * dy
      | 1 => dy / dx
      | _ => 0
    else 0
  | .spline =>
    if 0 < dx then
      let y_lo := points.getD idx 0
      let y_hi := points.getD (idx + 1) 0
      let dy := y_hi - y_lo
      let cArr := csplineC times points
      let c_i := cArr.getD idx 0
      let c_ip1 := cArr.getD (idx + 1) 0
      let b := dy / dx - dx * (c_ip1 + 2 * c_i) / 3
      let dcoef := (c_ip1 - c_i) / (3 * dx)
      let delx := x - x_lo
      match d with
      | 0 => y_lo + delx * (b + delx * (c_i + delx * dcoef))
      | 1 => b + delx * (2 * c_i + 3 * dcoef * delx)
      | 2 => 2 * c_i + 6 * dcoef * delx
      | _ => 0
    else 0

/-- The scalar interpolation primitive `ale::interpolate`, instrumented
with a `Bool` that records whether control reached the numerical
construction (`gsl_interp_alloc` / `gsl_interp_init` /
`gsl_interp_accel_alloc`).  Mirrors the control flow of the source:
the three argument checks come first; then the GSL objects are
constructed (during which GSL itself rejects too few points for the
method and non-strictly-increasing x values); the derivative-order
switch runs last, with its `default:` case throwing after construction. -/
def interpolateTr (points times : List K) (time : K) (interp : interpolation)
    (d : ℤ) : Bool × Except AleError K :=
  if points.length < 2 then (false, .error .insufficientPoints)
  else if points.length ≠ times.length then (false, .error .lengthMismatch)
  else if time < times.headD 0 ∨ times.getLastD 0 < time then
    (false, .error .timeOutOfRange)
  else if points.length < minSize interp then (true, .error .gslInsufficientPoints)
  else if strictlyIncreasing times = false then (true, .error .gslNotIncreasing)
  else if d = 0 then (true, .ok (gslEvalAt interp times points time 0))
  else if d = 1 then (true, .ok (gslEvalAt interp times points time 1))
  else if d = 2 then (true, .ok (gslEvalAt interp times points time 2))
  else (true, .error .invalidDerivative)

/-- Function `ale::interpolate` (ale.cpp lines 207-249): result component
of the instrumented version. -/
def interpolate (points times : List K) (time : K) (interp : interpolation)
    (d : ℤ) : Except AleError K :=
  (interpolateTr points times time interp d).2

/-- Horner evaluation of the polynomial with ascending-power coefficient
list `c` at `t` (the scheme of `gsl_poly_eval`). -/
def polyEval (c : List K) (t : K) : K :=
  c.foldr (fun a acc => a + t * acc) 0

/-- Elementwise coefficient scaling `[m*a₀, (m+1)*a₁, ...]` used to form
derivative coefficient lists. -/
def derivCoeffsAux : List K → ℕ → List K
  | [], _ => []
  | a :: t, m => (m : K) * a :: derivCoeffsAux t (m + 1)

/-- Ascending-power coefficients of the first derivative of the
polynomial with coefficients `c`. -/
def derivCoeffs : List K → List K
  | [] => []
  | _ :: t => derivCoeffsAux t 1

/-- Models the GSL library call `gsl_poly_eval_derivs c lenc t res lenres`
by its documented contract: `res[k]` holds the `k`-th derivative of the
polynomial `Σ cᵢ tⁱ` evaluated at `t`, for `k < lenres`. -/
def gslPolyEvalDerivs (c : List K) (t : K) (lenres : ℕ) : List K :=
  (List.range lenres).map (fun k => polyEval (derivCoeffs^[k] c) t)

/-- Function `ale::evaluatePolynomial` (ale.cpp lines 191-205): checks the
coefficient list and the derivative order, then asks GSL for derivative
orders `0..d` and returns `derivatives.back()`. -/
def evaluatePolynomial (coeffs : List K) (time : K) (d : ℤ) : Except AleError K :=
  if coeffs.isEmpty then .error .emptyCoeffs
  else if d < 0 then .error .negativeDerivative
  else .ok ((gslPolyEvalDerivs coeffs time (d.toNat + 1)).getLastD 0)

/-- Function `ale::getPosition` for tabulated data (ale.cpp lines 25-41). -/
def getPosition (coords : List (List K)) (times : List K) (time : K)
    (interp : interpolation) : Except AleError (List K) :=
  if coords.length ≠ 3 then .error .invalidPositionsShape
  else do
    let x ← interpolate (coords.getD 0 []) times time interp 0
    let y ← interpolate (coords.getD 1 []) times time interp 0
    let z ← interpolate (coords.getD 2 []) times time interp 0
    return [x, y, z]

/-- Function `ale::getVelocity` for tabulated data (ale.cpp lines 43-59). -/
def getVelocity (coords : List (List K)) (times : List K) (time : K)
    (interp : interpolation) : Except AleError (List K) :=
  if coords.length ≠ 3 then .error .invalidPositionsShape
  else do
    let x ← interpolate (coords.getD 0 []) times time interp 1
    let y ← interpolate (coords.getD 1 []) times time interp 1
    let z ← interpolate (coords.getD 2 []) times time interp 1
    return [x, y, z]

/-- Function `ale::getPosition` for a polynomial model (ale.cpp lines 69-81). -/
def getPositionPoly (coeffs : List (List K)) (time : K) :
    Except AleError (List K) :=
  if coeffs.length ≠ 3 then .error .invalidCoeffsShape
  else do
    let x ← evaluatePolynomial (coeffs.getD 0 []) time 0
    let y ← evaluatePolynomial (coeffs.getD 1 []) time 0
    let z ← evaluatePolynomial (coeffs.getD 2 []) time 0
    return [x, y, z]

/-- Function `ale::getVelocity` for a polynomial model (ale.cpp lines 86-98). -/
def getVelocityPoly (coeffs : List (List K)) (time : K) :
    Except AleError (List K) :=
  if coeffs.length ≠ 3 then .error .invalidCoeffsShape
  else do
    let x ← evaluatePolynomial (coeffs.getD 0 []) time 1
    let y ← evaluatePolynomial (coeffs.getD 1 []) time 1
    let z ← evaluatePolynomial (coeffs.getD 2 []) time 1
    return [x, y, z]

/-- Eigen `Quaterniond::normalize` on the 4 components of one sample:
divide by the Euclidean norm (`sqrtFn` of the squared norm) when the
squared norm is positive, leave the vector unchanged otherwise
(Eigen's `MatrixBase::normalize` is guarded by `if (z > 0)`). -/
def normalize4 (sqrtFn : K → K) (w x y z : K) : K × K × K × K :=
  let s := w * w + x * x + y * y + z * z
  if 0 < s then
    (w / sqrtFn s, x / sqrtFn s, y / sqrtFn s, z / sqrtFn s)
  else (w, x, y, z)

/-- The per-sample normalization loop of `getRotation` /
`getAngularVelocity` (ale.cpp lines 114-122 and 147-154): for each index
`i` below the length of channel 0, read the 4 channel values at `i`,
normalize them as a quaternion, and write the results back.  The loop
trip count is the structural fuel (the C loop runs exactly
`rotations[0].size()` times). -/
def normalizeLoop (sqrtFn : K → K) :
    ℕ → ℕ → List K → List K → List K → List K →
    List K × List K × List K × List K
  | 0, _, r0, r1, r2, r3 => (r0, r1, r2, r3)
  | fuel + 1, i, r0, r1, r2, r3 =>
    let q := normalize4 sqrtFn (r0.getD i 0) (r1.getD i 0) (r2.getD i 0) (r3.getD i 0)
    normalizeLoop sqrtFn fuel (i + 1)
      (r0.set i q.1) (r1.set i q.2.1) (r2.set i q.2.2.1) (r3.set i q.2.2.2)

/-- Runs the per-sample normalization loop on the 4 rotation channels. -/
def normalizeRotations (sqrtFn : K → K) (rotations : List (List K)) :
    List (List K) :=
  let r0 := rotations.getD 0 []
  let r1 := rotations.getD 1 []
  let r2 := rotations.getD 2 []
  let r3 := rotations.getD 3 []
  let res := normalizeLoop sqrtFn r0.length 0 r0 r1 r2 r3
  [res.1, res.2.1, res.2.2.1, res.2.2.2]

/-- Sum of squares of the entries (Eigen `squaredNorm`). -/
def sumSq (l : List K) : K := (l.map (fun a => a * a)).sum

/-- Eigen `normalize` applied through the `Eigen::Map` over the assembled
result vector: divide every entry by the Euclidean norm when the squared
norm is positive, otherwise leave the vector unchanged. -/
def normalizeVec4 (sqrtFn : K → K) (v : List K) : List K :=
  let s := sumSq v
  if 0 < s then v.map (fun a => a / sqrtFn s) else v

/-- Function `ale::getRotation` (ale.cpp lines 102-136) up to but not including
the final renormalization of the assembled 4-tuple: shape check,
per-sample normalization of the channels, then independent interpolation
of the 4 channels with derivative order 0. -/
def getRotationRaw (sqrtFn : K → K) (rotations : List (List K))
    (times : List K) (time : K) (interp : interpolation) :
    Except AleError (List K) :=
  if rotations.length ≠ 4 then .error .invalidRotationsShape
  else
    let r := normalizeRotations sqrtFn rotations
    do
      let w ← interpolate (r.getD 0 []) times time interp 0
      let x ← interpolate (r.getD 1 []) times time interp 0
      let y ← interpolate (r.getD 2 []) times time interp 0
      let z ← interpolate (r.getD 3 []) times time interp 0
      return [w, x, y, z]

/-- Function `ale::getRotation` (ale.cpp lines 102-136): the raw interpolated
4-tuple followed by the final Eigen renormalization. -/
def getRotation (sqrtFn : K → K) (rotations : List (List K))
    (times : List K) (time : K) (interp : interpolation) :
    Except AleError (List K) :=
  (getRotationRaw sqrtFn rotations times time interp).map (normalizeVec4 sqrtFn)

/-- Function `ale::getAngularVelocity` (ale.cpp lines 138-168) up to but not
including the final renormalization: identical to the rotation path but
with derivative order 1. -/
def getAngularVelocityRaw (sqrtFn : K → K) (rotations : List (List K))
    (times : List K) (time : K) (interp : interpolation) :
    Except AleError (List K) :=
  if rotations.length ≠ 4 then .error .invalidRotationsShape
  else
    let r := normalizeRotations sqrtFn rotations
    do
      let w ← interpolate (r.getD 0 []) times time interp 1
      let x ← interpolate (r.getD 1 []) times time interp 1
      let y ← interpolate (r.getD 2 []) times time interp 1
      let z ← interpolate (r.getD 3 []) times time interp 1
      return [w, x, y, z]

/-- Function `ale::getAngularVelocity` (ale.cpp lines 138-168): raw interpolated
derivative 4-tuple followed by the final Eigen renormalization. -/
def getAngularVelocity (sqrtFn : K → K) (rotations : List (List K))
    (times : List K) (time : K) (interp : interpolation) :
    Except AleError (List K) :=
  (getAngularVelocityRaw sqrtFn rotations times time interp).map
    (normalizeVec4 sqrtFn)

/-- The (channel, sample-index) element accesses performed by the
per-sample normalization loop: it iterates `i` over the indices of
channel 0 and at each `i` reads and writes all four channels. -/
def normLoopAccesses (rotations : List (List K)) : List (ℕ × ℕ) :=
  (List.range (rotations.getD 0 []).length).flatMap
    (fun i => [(0, i), (1, i), (2, i), (3, i)])

/-- A (channel, sample-index) access is in bounds for the given channel
list. -/
def accessInBounds (rotations : List (List K)) (a : ℕ × ℕ) : Prop :=
  a.2 < (rotations.getD a.1 []).length

instance (rotations : List (List K)) (a : ℕ × ℕ) :
    Decidable (accessInBounds rotations a) :=
  Nat.decLt a.2 (rotations.getD a.1 []).length

/-- The only validation `getRotation` / `getAngularVelocity` perform
before running the normalization loop: the channel-count check. -/
def rotationPrecheckPasses (rotations : List (List K)) : Bool :=
  rotations.length == 4

/-- A computable stand-in for the real square root on `ℚ`, exact on
ratios of perfect squares (in particular on `0` and `1`, the only values
at which the concrete evaluations below take square roots). -/
def ratSqrt (q : ℚ) : ℚ :=
  (Nat.sqrt q.num.toNat : ℚ) / (Nat.sqrt q.den : ℚ)

/-- The polynomial `Σ cᵢ Xⁱ` denoted by an ascending-power coefficient
list; the reference semantics against which the evaluation primitives
are verified. -/
noncomputable def ofCoeffs : List K → Polynomial K
  | [] => 0
  | a :: t => Polynomial.C a + Polynomial.X * ofCoeffs t

/-! ### Helper lemmas about lists, the monotonicity scan and the search -/

theorem headD_eq_getD (l : List K) (hl : l ≠ []) (d e : K) :
    l.headD d = l.getD 0 e := by
  cases l with
  | nil => exact absurd rfl hl
  | cons a t => rfl

theorem getLastD_eq_getD (l : List K) (hl : l ≠ []) (d e : K) :
    l.getLastD d = l.getD (l.length - 1) e := by
  induction l generalizing d with
  | nil => exact absurd rfl hl
  | cons a t ih =>
    cases t with
    | nil => rfl
    | cons b s =>
      have h1 : (a :: b :: s).getLastD d = (b :: s).getLastD a := rfl
      have h2 : (a :: b :: s).length - 1 = (b :: s).length - 1 + 1 := by
        simp [List.length_cons]
      rw [h1, h2, ih (by simp) a, List.getD_cons_succ]

theorem getD_eq_getElem (l : List K) (i : ℕ) (h : i < l.length) (d : K) :
    l.getD i d = l.get ⟨i, h⟩ := by
  simp [List.getD_eq_getElem?_getD, List.getElem?_eq_getElem h]

theorem strictlyIncreasing_cons {a b : K} {t : List K} :
    strictlyIncreasing (a :: b :: t) = true ↔
      a < b ∧ strictlyIncreasing (b :: t) = true := by
  simp [strictlyIncreasing]

theorem strictlyIncreasing_adj {l : List K} (h : strictlyIncreasing l = true)
    (i : ℕ) (hi : i + 1 < l.length) : l.getD i 0 < l.getD (i + 1) 0 := by
  induction l generalizing i with
  | nil => simp at hi
  | cons a t ih =>
    cases t with
    | nil => simp at hi
    | cons b s =>
      rcases strictlyIncreasing_cons.1 h with ⟨hab, ht⟩
      cases i with
      | zero => simpa using hab
      | succ j =>
        rw [List.getD_cons_succ, List.getD_cons_succ]
        exact ih ht j (by simpa [List.length_cons] using hi)

theorem strictlyIncreasing_getD_lt {l : List K}
    (h : strictlyIncreasing l = true) :
    ∀ i j, i < j → j < l.length → l.getD i 0 < l.getD j 0 := by
  intro i j hij hj
  obtain ⟨d, rfl⟩ : ∃ d, j = i + d + 1 := ⟨j - i - 1, by omega⟩
  clear hij
  induction d with
  | zero => exact strictlyIncreasing_adj h i hj
  | succ e ih =>
    have h1 : i + e + 1 < l.length := by omega
    have h2 : i + (e + 1) + 1 = (i + e + 1) + 1 := by omega
    calc l.getD i 0 < l.getD (i + e + 1) 0 := ih h1
    _ < l.getD (i + (e + 1) + 1) 0 := by
        rw [h2]; exact strictlyIncreasing_adj h (i + e + 1) (by omega)

theorem strictlyIncreasing_getD_le {l : List K}
    (h : strictlyIncreasing l = true) :
    ∀ i j, i ≤ j → j < l.length → l.getD i 0 ≤ l.getD j 0 := by
  intro i j hij hj
  rcases eq_or_lt_of_le hij with rfl | hlt
  · exact le_rfl
  · exact le_of_lt (strictlyIncreasing_getD_lt h i j hlt hj)

theorem bsearchAux_eq_of_mid_iff {xa : List K} {x : K} {i : ℕ} :
    ∀ (fuel ilo ihi : ℕ), ihi - ilo ≤ fuel → ilo ≤ i → i < ihi →
      (∀ m, ilo < m → m < ihi → (x < xa.getD m 0 ↔ i < m)) →
      bsearchAux xa x fuel ilo ihi = i := by
  intro fuel
  induction fuel with
  | zero => intro ilo ihi hf h1 h2 _; omega
  | succ f ih =>
    intro ilo ihi hf h1 h2 hm
    by_cases hlt : ilo + 1 < ihi
    · have hmidlo : ilo < (ihi + ilo) / 2 := by omega
      have hmidhi : (ihi + ilo) / 2 < ihi := by omega
      rw [bsearchAux, if_pos hlt]
      by_cases hx : x < xa.getD ((ihi + ilo) / 2) 0
      · rw [if_pos hx]
        have hi2 : i < (ihi + ilo) / 2 := (hm _ hmidlo hmidhi).1 hx
        exact ih ilo _ (by omega) h1 hi2
          (fun m hm1 hm2 => hm m hm1 (by omega))
      · rw [if_neg hx]
        have hi2 : (ihi + ilo) / 2 ≤ i := by
          by_contra hc
          exact hx ((hm _ hmidlo hmidhi).2 (by omega))
        exact ih _ ihi (by omega) hi2 h2
          (fun m hm1 hm2 => hm m (by omega) hm2)
    · rw [bsearchAux, if_neg hlt]; omega

theorem bsearchAux_eq_of_all_ge {xa : List K} {x : K} :
    ∀ (fuel ilo ihi : ℕ), ihi - ilo ≤ fuel → ilo < ihi →
      (∀ m, ilo < m → m < ihi → ¬ x < xa.getD m 0) →
      bsearchAux xa x fuel ilo ihi = ihi - 1 := by
  intro fuel
  induction fuel with
  | zero => intro ilo ihi hf h1 _; omega
  | succ f ih =>
    intro ilo ihi hf h1 hm
    by_cases hlt : ilo + 1 < ihi
    · have hmidlo : ilo < (ihi + ilo) / 2 := by omega
      have hmidhi : (ihi + ilo) / 2 < ihi := by omega
      rw [bsearchAux, if_pos hlt, if_neg (hm _ hmidlo hmidhi)]
      exact ih _ ihi (by omega) (by omega)
        (fun m hm1 hm2 => hm m (by omega) hm2)
    · rw [bsearchAux, if_neg hlt]; omega

theorem interpolate_ok {points times : List K} {time : K}
    {interp : interpolation} {d : ℤ}
    (h2 : ¬ points.length < 2) (hlen : points.length = times.length)
    (hlo : ¬ time < times.headD 0) (hhi : ¬ times.getLastD 0 < time)
    (hmin : ¬ points.length < minSize interp)
    (hinc : strictlyIncreasing times = true)
    (hd : d = 0 ∨ d = 1 ∨ d = 2) :
    interpolate points times time interp d =
      .ok (gslEvalAt interp times points time d.toNat) := by
  unfold interpolate interpolateTr
  rw [if_neg h2, if_neg (by simp [hlen]), if_neg (not_or.mpr ⟨hlo, hhi⟩),
    if_neg hmin, if_neg (by simp [hinc])]
  rcases hd with rfl | rfl | rfl
  · rw [if_pos rfl]; rfl
  · rw [if_neg (by decide), if_pos rfl]; rfl
  · rw [if_neg (by decide), if_neg (by decide), if_pos rfl]; rfl

theorem interpolate_two_linear (v0 v1 t0 t1 t : K) (h01 : t0 < t1)
    (hlo : t0 ≤ t) (hhi : t ≤ t1) :
    interpolate [v0, v1] [t0, t1] t .linear 0 =
      .ok (v0 + (t - t0) / (t1 - t0) * (v1 - v0)) ∧
    interpolate [v0, v1] [t0, t1] t .linear 1 =
      .ok ((v1 - v0) / (t1 - t0)) := by
  have hinc : strictlyIncreasing [t0, t1] = true := by
    simp [strictlyIncreasing, h01]
  have hdx : (0 : K) < t1 - t0 := sub_pos.2 h01
  constructor
  · rw [interpolate_ok (by simp) (by simp) (by simpa using not_lt.2 hlo)
      (by simpa using not_lt.2 hhi) (by simp [minSize]) hinc (Or.inl rfl)]
    simp [gslEvalAt, gslInterpBsearch, bsearchAux, hdx]
  · rw [interpolate_ok (by simp) (by simp) (by simpa using not_lt.2 hlo)
      (by simpa using not_lt.2 hhi) (by simp [minSize]) hinc
      (Or.inr (Or.inl rfl))]
    simp [gslEvalAt, gslInterpBsearch, bsearchAux, hdx]

/-! ### Claims -/

/-- C1: for every two-sample channel ((t0,v0),(t1,v1)) and every query
time t with t0 ≤ t ≤ t1, the scalar interpolation primitive with the
linear method and derivative order 0 returns exactly the affine
interpolation v0 + (v1-v0)(t-t0)/(t1-t0); in particular tabulated
getPosition on channels x=[0,1], y=[0,0], z=[0,0], timestamps [0,10],
linear, at time 5 returns [1/2,0,0], and tabulated getVelocity at any
t in (0,10) returns [1/10,0,0]. -/
theorem C1_linear_interpolation_affine :
    (∀ (K : Type) [LinearOrderedField K], ∀ (t0 v0 t1 v1 t : K),
      t0 < t1 → t0 ≤ t → t ≤ t1 →
      interpolate [v0, v1] [t0, t1] t .linear 0 =
        .ok (v0 + (v1 - v0) * (t - t0) / (t1 - t0))) ∧
    getPosition (K := ℚ) [[0, 1], [0, 0], [0, 0]] [0, 10] 5 .linear =
      .ok [1/2, 0, 0] ∧
    (∀ t : ℚ, 0 < t → t < 10 →
      getVelocity [[0, 1], [0, 0], [0, 0]] [0, 10] t .linear =
        .ok [1/10, 0, 0]) := by
  refine ⟨?_, ?_, ?_⟩
  · intro K _ t0 v0 t1 v1 t h01 hlo hhi
    rw [(interpolate_two_linear v0 v1 t0 t1 t h01 hlo hhi).1]
    congr 1
    ring
  · norm_num [getPosition, interpolate, interpolateTr, gslEvalAt,
      gslInterpBsearch, bsearchAux, strictlyIncreasing, minSize]
    rfl
  · intro t ht0 ht10
    have h1 := (interpolate_two_linear (K := ℚ) 0 1 0 10 t (by norm_num)
      (le_of_lt ht0) (le_of_lt ht10)).2
    have h2 := (interpolate_two_linear (K := ℚ) 0 0 0 10 t (by norm_num)
      (le_of_lt ht0) (le_of_lt ht10)).2
    unfold getVelocity
    rw [if_neg (by simp)]
    simp only [List.getD]
    norm_num at h1 h2
    simp [h1, h2]
    rfl

/-- C1 witness: the general affine conjunct applied at the concrete
channel ((0,3),(1,5)) and query time 1/2. -/
theorem C1_witness :
    interpolate (K := ℚ) [3, 5] [0, 1] (1/2) .linear 0 =
      .ok (3 + (5 - 3) * (1/2 - 0) / (1 - 0)) ∧
    getVelocity (K := ℚ) [[0, 1], [0, 0], [0, 0]] [0, 10] 5 .linear =
      .ok [1/10, 0, 0] :=
  ⟨C1_linear_interpolation_affine.1 ℚ 0 3 1 5 (1/2) (by norm_num)
      (by norm_num) (by norm_num),
    C1_linear_interpolation_affine.2.2 5 (by norm_num) (by norm_num)⟩

/-- C2 (amended): the scalar interpolation primitive fails exactly when
the channel has fewer than 2 samples, the channel and timestamp lengths
differ, the query time lies outside [first timestamp, last timestamp],
the channel has fewer samples than the selected method's minimum (the
cubic-spline backend requires 3), the timestamps are not strictly
increasing, or the derivative order is not 0, 1 or 2; in particular a
query time equal to the first or last timestamp is accepted. -/
theorem C2_error_conditions :
    ∀ (K : Type) [LinearOrderedField K], ∀ (points times : List K) (time : K)
      (interp : interpolation) (d : ℤ),
      isErr (interpolate points times time interp d) = true ↔
        (points.length < 2 ∨ points.length ≠ times.length ∨
         time < times.headD 0 ∨ times.getLastD 0 < time ∨
         points.length < minSize interp ∨
         strictlyIncreasing times = false ∨
         ¬ (d = 0 ∨ d = 1 ∨ d = 2)) := by
  intro K _ points times time interp d
  unfold interpolate interpolateTr
  split_ifs with h1 h2 h3 h4 h5 h6 h7 h8 <;>
    simp_all [isErr] <;> tauto

/-- C2 counterexample: with the cubic-spline method and a channel of
exactly two samples, every precondition listed by the claim is satisfied
(2 samples, equal lengths, query time inside the closed range, derivative
order 0), yet the call fails. -/
theorem C2_cex :
    isErr (interpolate (K := ℚ) [0, 1] [0, 1] 0 .spline 0) = true ∧
    ¬ (([0, 1] : List ℚ).length < 2) ∧
    (([0, 1] : List ℚ).length = ([0, 1] : List ℚ).length) ∧
    ¬ ((0 : ℚ) < ([0, 1] : List ℚ).headD 0) ∧
    ¬ (([0, 1] : List ℚ).getLastD 0 < (0 : ℚ)) ∧
    ((0 : ℤ) = 0 ∨ (0 : ℤ) = 1 ∨ (0 : ℤ) = 2) := by decide

/-- C3 (amended): the channel-size, length-match and time-range
preconditions are checked before any numerical construction, but the
derivative-order precondition is checked only inside the evaluation
switch, after the interpolant and its lookup-acceleration state have been
constructed: a derivative-order violation is an error exit that occurs
after construction. -/
theorem C3_checks_vs_construction :
    ∀ (K : Type) [LinearOrderedField K], ∀ (points times : List K) (time : K)
      (interp : interpolation) (d : ℤ),
      (((interpolateTr points times time interp d).2 =
          .error .insufficientPoints ∨
        (interpolateTr points times time interp d).2 =
          .error .lengthMismatch ∨
        (interpolateTr points times time interp d).2 =
          .error .timeOutOfRange) →
        (interpolateTr points times time interp d).1 = false) ∧
      ((interpolateTr points times time interp d).2 =
          .error .invalidDerivative →
        (interpolateTr points times time interp d).1 = true) := by
  intro K _ points times time interp d
  unfold interpolateTr
  split_ifs <;> simp_all

/-- C3 counterexample: a call with a perfectly valid two-sample linear
channel but derivative order 3 reaches the numerical construction (the
instrumented flag is true) and only then exits with the
invalid-derivative error. -/
theorem C3_cex :
    (interpolateTr (K := ℚ) [0, 1] [0, 1] 0 .linear 3).1 = true ∧
    (interpolateTr (K := ℚ) [0, 1] [0, 1] 0 .linear 3).2 =
      .error .invalidDerivative := by decide

/-- C3 witness: the amended theorem applied at a too-short channel (error
before construction) and at a valid channel with derivative order 3
(error after construction). -/
theorem C3_witness :
    (interpolateTr (K := ℚ) [] [] 0 .linear 0).1 = false ∧
    (interpolateTr (K := ℚ) [1, 2] [0, 1] 0 .linear 5).1 = true :=
  ⟨(C3_checks_vs_construction ℚ [] [] 0 .linear 0).1 (Or.inl (by decide)),
    (C3_checks_vs_construction ℚ [1, 2] [0, 1] 0 .linear 5).2 (by decide)⟩

/-! ### Polynomial semantics lemmas -/

theorem ofCoeffs_nil : ofCoeffs ([] : List K) = 0 := rfl

theorem ofCoeffs_cons (a : K) (t : List K) :
    ofCoeffs (a :: t) = Polynomial.C a + Polynomial.X * ofCoeffs t := rfl

theorem polyEval_nil (x : K) : polyEval [] x = 0 := rfl

theorem polyEval_cons (a : K) (t : List K) (x : K) :
    polyEval (a :: t) x = a + x * polyEval t x := rfl

theorem eval_ofCoeffs (c : List K) (x : K) :
    Polynomial.eval x (ofCoeffs c) = polyEval c x := by
  induction c with
  | nil => simp [ofCoeffs_nil, polyEval_nil]
  | cons a t ih => simp [ofCoeffs_cons, polyEval_cons, ih]

theorem ofCoeffs_derivCoeffsAux (c : List K) :
    ∀ m : ℕ, ofCoeffs (derivCoeffsAux c m) =
      Polynomial.C (m : K) * ofCoeffs c +
        Polynomial.X * Polynomial.derivative (ofCoeffs c) := by
  induction c with
  | nil => intro m; simp [derivCoeffsAux, ofCoeffs_nil]
  | cons a t ih =>
    intro m
    have h1 : derivCoeffsAux (a :: t) m = (m : K) * a :: derivCoeffsAux t (m + 1) := rfl
    rw [h1, ofCoeffs_cons, ih (m + 1), ofCoeffs_cons]
    simp only [Polynomial.derivative_add, Polynomial.derivative_C,
      Polynomial.derivative_mul, Polynomial.derivative_X, Nat.cast_add,
      Nat.cast_one, map_add, map_mul, map_one, Polynomial.C_1, zero_add, one_mul]
    ring

theorem ofCoeffs_derivCoeffs (c : List K) :
    ofCoeffs (derivCoeffs c) = Polynomial.derivative (ofCoeffs c) := by
  cases c with
  | nil => simp [derivCoeffs, ofCoeffs_nil]
  | cons a t =>
    have h1 : derivCoeffs (a :: t) = derivCoeffsAux t 1 := rfl
    rw [h1, ofCoeffs_derivCoeffsAux t 1, ofCoeffs_cons]
    simp only [Polynomial.derivative_add, Polynomial.derivative_C,
      Polynomial.derivative_mul, Polynomial.derivative_X, Nat.cast_one,
      Polynomial.C_1, zero_add, one_mul]

theorem ofCoeffs_derivCoeffs_iterate (c : List K) (k : ℕ) :
    ofCoeffs (derivCoeffs^[k] c) = Polynomial.derivative^[k] (ofCoeffs c) := by
  induction k generalizing c with
  | zero => rfl
  | succ n ih =>
    rw [Function.iterate_succ_apply, Function.iterate_succ_apply, ih,
      ofCoeffs_derivCoeffs]

theorem natDegree_ofCoeffs_lt (c : List K) (hc : c ≠ []) :
    (ofCoeffs c).natDegree < c.length := by
  induction c with
  | nil => exact absurd rfl hc
  | cons a t ih =>
    cases t with
    | nil => simp [ofCoeffs_cons, ofCoeffs_nil]
    | cons b s =>
      rw [ofCoeffs_cons]
      have h2 := Polynomial.natDegree_add_le (Polynomial.C a)
        (Polynomial.X * ofCoeffs (b :: s))
      have h3 := Polynomial.natDegree_mul_le
        (p := (Polynomial.X : Polynomial K)) (q := ofCoeffs (b :: s))
      have h4 := ih (by simp)
      simp only [Polynomial.natDegree_C, Polynomial.natDegree_X] at h2 h3
      simp only [List.length_cons] at h4 ⊢
      omega

theorem gslPolyEvalDerivs_getLastD (c : List K) (t : K) (k : ℕ) :
    (gslPolyEvalDerivs c t (k + 1)).getLastD 0 = polyEval (derivCoeffs^[k] c) t := by
  unfold gslPolyEvalDerivs
  rw [List.range_succ, List.map_append]
  simp

theorem evaluatePolynomial_ok (c : List K) (t : K) (d : ℤ) (hc : c ≠ [])
    (hd : 0 ≤ d) :
    evaluatePolynomial c t d = .ok (polyEval (derivCoeffs^[d.toNat] c) t) := by
  unfold evaluatePolynomial
  rw [if_neg (by simpa using hc), if_neg (by simpa using not_lt.2 hd),
    gslPolyEvalDerivs_getLastD]

/-- C4: for every non-empty coefficient list c and every t and d ≥ 0,
evaluatePolynomial returns the d-th derivative of Σ cᵢ tⁱ at t; for
d ≥ length c (i.e. d beyond the degree) it returns exactly 0; and it
fails exactly when the coefficient list is empty or d is negative. -/
theorem C4_evaluatePolynomial_derivative :
    ∀ (K : Type) [LinearOrderedField K], ∀ (c : List K) (t : K) (d : ℤ),
      (c ≠ [] → 0 ≤ d →
        evaluatePolynomial c t d =
          .ok (Polynomial.eval t
            (Polynomial.derivative^[d.toNat] (ofCoeffs c)))) ∧
      (c ≠ [] → (c.length : ℤ) ≤ d → evaluatePolynomial c t d = .ok 0) ∧
      (isErr (evaluatePolynomial c t d) = true ↔ c = [] ∨ d < 0) := by
  intro K _ c t d
  refine ⟨?_, ?_, ?_⟩
  · intro hc hd
    rw [evaluatePolynomial_ok c t d hc hd, ← ofCoeffs_derivCoeffs_iterate,
      eval_ofCoeffs]
  · intro hc hd
    have hlen : 0 < c.length := List.length_pos.2 hc
    have hd0 : 0 ≤ d := by omega
    rw [evaluatePolynomial_ok c t d hc hd0, ← eval_ofCoeffs,
      ofCoeffs_derivCoeffs_iterate]
    rw [Polynomial.iterate_derivative_eq_zero
      (lt_of_lt_of_le (natDegree_ofCoeffs_lt c hc) (by omega)),
      Polynomial.eval_zero]
  · unfold evaluatePolynomial
    split_ifs with h1 h2 <;> simp_all [isErr, List.isEmpty_iff]

/-- C4 witness: the main conjunct at c=[1,2,5], t=3, d=1 and the
beyond-degree conjunct at c=[1,2], d=4. -/
theorem C4_witness :
    evaluatePolynomial (K := ℚ) [1, 2, 5] 3 1 =
      .ok (Polynomial.eval 3
        (Polynomial.derivative^[(1 : ℤ).toNat] (ofCoeffs [1, 2, 5]))) ∧
    evaluatePolynomial (K := ℚ) [1, 2] 3 4 = .ok 0 :=
  ⟨(C4_evaluatePolynomial_derivative ℚ [1, 2, 5] 3 1).1 (by simp) (by norm_num),
    (C4_evaluatePolynomial_derivative ℚ [1, 2] 3 4).2.1 (by simp) (by norm_num)⟩

/-- C5: for 3 non-empty axis-coefficient lists, polynomial getVelocity
equals component-wise the analytic first derivative of the polynomial
that polynomial getPosition evaluates. -/
theorem C5_velocity_is_position_derivative :
    ∀ (K : Type) [LinearOrderedField K], ∀ (c0 c1 c2 : List K) (t : K),
      c0 ≠ [] → c1 ≠ [] → c2 ≠ [] →
      getPositionPoly [c0, c1, c2] t =
        .ok [Polynomial.eval t (ofCoeffs c0), Polynomial.eval t (ofCoeffs c1),
          Polynomial.eval t (ofCoeffs c2)] ∧
      getVelocityPoly [c0, c1, c2] t =
        .ok [Polynomial.eval t (Polynomial.derivative (ofCoeffs c0)),
          Polynomial.eval t (Polynomial.derivative (ofCoeffs c1)),
          Polynomial.eval t (Polynomial.derivative (ofCoeffs c2))] := by
  intro K _ c0 c1 c2 t h0 h1 h2
  constructor
  · unfold getPositionPoly
    rw [if_neg (by simp)]
    simp only [List.getD_cons_zero, List.getD_cons_succ]
    rw [evaluatePolynomial_ok c0 t 0 h0 le_rfl,
      evaluatePolynomial_ok c1 t 0 h1 le_rfl,
      evaluatePolynomial_ok c2 t 0 h2 le_rfl]
    simp only [Int.toNat_zero, Function.iterate_zero, id_eq, eval_ofCoeffs]
    rfl
  · unfold getVelocityPoly
    rw [if_neg (by simp)]
    simp only [List.getD_cons_zero, List.getD_cons_succ]
    rw [evaluatePolynomial_ok c0 t 1 h0 (by norm_num),
      evaluatePolynomial_ok c1 t 1 h1 (by norm_num),
      evaluatePolynomial_ok c2 t 1 h2 (by norm_num)]
    simp only [Int.toNat_one, Function.iterate_one, ← ofCoeffs_derivCoeffs,
      eval_ofCoeffs]
    rfl

/-- C5 witness: with x-coefficients [1,2] (x(t) = 1 + 2t) and zero y/z
polynomials, position at t = 3 is [7,0,0] and velocity is [2,0,0]. -/
theorem C5_witness :
    getPositionPoly (K := ℚ) [[1, 2], [0], [0]] 3 = .ok [7, 0, 0] ∧
    getVelocityPoly (K := ℚ) [[1, 2], [0], [0]] 3 = .ok [2, 0, 0] := by
  have h := C5_velocity_is_position_derivative ℚ [1, 2] [0] [0] 3
    (by simp) (by simp) (by simp)
  refine ⟨?_, ?_⟩
  · rw [h.1]
    norm_num [ofCoeffs_cons, ofCoeffs_nil]
  · rw [h.2]
    norm_num [ofCoeffs_cons, ofCoeffs_nil]

/-- C8: every tabulated operation rejects a channel count different from
its required count (3 for getPosition/getVelocity, 4 for
getRotation/getAngularVelocity) with its shape-mismatch error, and every
polynomial operation rejects an axis-sequence count different from 3 —
for arbitrary channel contents, timestamps and query time, i.e. before
any numerical work on the data. -/
theorem C8_shape_checks :
    ∀ (K : Type) [LinearOrderedField K],
      ∀ (coords : List (List K)) (times : List K) (time : K)
        (interp : interpolation) (sqrtFn : K → K),
      (coords.length ≠ 3 →
        getPosition coords times time interp = .error .invalidPositionsShape ∧
        getVelocity coords times time interp = .error .invalidPositionsShape ∧
        getPositionPoly coords time = .error .invalidCoeffsShape ∧
        getVelocityPoly coords time = .error .invalidCoeffsShape) ∧
      (coords.length ≠ 4 →
        getRotation sqrtFn coords times time interp =
          .error .invalidRotationsShape ∧
        getAngularVelocity sqrtFn coords times time interp =
          .error .invalidRotationsShape) := by
  intro K _ coords times time interp sqrtFn
  constructor
  · intro h3
    exact ⟨by rw [getPosition, if_pos h3], by rw [getVelocity, if_pos h3],
      by rw [getPositionPoly, if_pos h3], by rw [getVelocityPoly, if_pos h3]⟩
  · intro h4
    constructor
    · rw [getRotation, getRotationRaw, if_pos h4]; rfl
    · rw [getAngularVelocity, getAngularVelocityRaw, if_pos h4]; rfl

/-- C8 witness: a 2-channel input (2 ≠ 3 and 2 ≠ 4) is rejected by all
six operations; in particular tabulated getPosition with only 2 channels
fails with the shape-mismatch error. -/
theorem C8_witness :
    getPosition (K := ℚ) [[0, 1], [0, 1]] [0, 1] 0 .linear =
      .error .invalidPositionsShape ∧
    getVelocity (K := ℚ) [[0, 1], [0, 1]] [0, 1] 0 .linear =
      .error .invalidPositionsShape ∧
    getPositionPoly (K := ℚ) [[0, 1], [0, 1]] 0 = .error .invalidCoeffsShape ∧
    getVelocityPoly (K := ℚ) [[0, 1], [0, 1]] 0 = .error .invalidCoeffsShape ∧
    getRotation (K := ℚ) ratSqrt [[0, 1], [0, 1]] [0, 1] 0 .linear =
      .error .invalidRotationsShape ∧
    getAngularVelocity (K := ℚ) ratSqrt [[0, 1], [0, 1]] [0, 1] 0 .linear =
      .error .invalidRotationsShape := by
  have h := C8_shape_checks ℚ [[0, 1], [0, 1]] [0, 1] 0 .linear ratSqrt
  have h3 := h.1 (by decide)
  have h4 := h.2 (by decide)
  exact ⟨h3.1, h3.2.1, h3.2.2.1, h3.2.2.2, h4.1, h4.2⟩

/-- C10: whenever channels 1, 2 and 3 are each at least as long as
channel 0, every (channel, index) element access performed by the
per-sample normalization loop is in bounds; and the only check the
rotation operations perform before running that loop is the channel
count, so the cross-channel length condition is a genuine unchecked
precondition (witnessed by a 4-channel input with a short channel 1 that
passes the pre-loop check while the loop performs an out-of-bounds
access). -/
theorem C10_norm_loop_bounds :
    (∀ (K : Type) [LinearOrderedField K], ∀ (rotations : List (List K)),
      (rotations.getD 0 []).length ≤ (rotations.getD 1 []).length →
      (rotations.getD 0 []).length ≤ (rotations.getD 2 []).length →
      (rotations.getD 0 []).length ≤ (rotations.getD 3 []).length →
      ∀ a ∈ normLoopAccesses rotations, accessInBounds rotations a) ∧
    rotationPrecheckPasses (K := ℚ) [[0, 0], [0], [0, 0], [0, 0]] = true ∧
    ((1, 1) ∈ normLoopAccesses (K := ℚ) [[0, 0], [0], [0, 0], [0, 0]]) ∧
    ¬ accessInBounds (K := ℚ) [[0, 0], [0], [0, 0], [0, 0]] (1, 1) := by
  refine ⟨?_, by decide, by decide, by decide⟩
  intro K _ rotations h1 h2 h3 a ha
  rcases List.mem_flatMap.1 ha with ⟨i, hi, hmem⟩
  have hi0 : i < (rotations.getD 0 []).length := List.mem_range.1 hi
  simp only [List.mem_cons, List.not_mem_nil, or_false] at hmem
  rcases hmem with rfl | rfl | rfl | rfl
  · exact hi0
  · exact lt_of_lt_of_le hi0 h1
  · exact lt_of_lt_of_le hi0 h2
  · exact lt_of_lt_of_le hi0 h3

/-- C10 witness: the bounds conjunct applied to equal-length 4-channel
input, checking a sample access. -/
theorem C10_witness :
    accessInBounds (K := ℚ) [[1, 0], [0, 1], [0, 0], [0, 0]] (2, 1) :=
  C10_norm_loop_bounds.1 ℚ [[1, 0], [0, 1], [0, 0], [0, 0]]
    (by decide) (by decide) (by decide) (2, 1) (by decide)

/-! ### Quaternion normalization lemmas -/

theorem normalize4_unit (sqrtFn : K → K) (w x y z : K) (hsq : sqrtFn 1 = 1)
    (hq : w * w + x * x + y * y + z * z = 1) :
    normalize4 sqrtFn w x y z = (w, x, y, z) := by
  unfold normalize4
  rw [hq, if_pos zero_lt_one, hsq, div_one, div_one, div_one, div_one]

theorem sumSq_nonneg (l : List K) : 0 ≤ sumSq l := by
  induction l with
  | nil => simp [sumSq]
  | cons a t ih =>
    have h : sumSq (a :: t) = a * a + sumSq t := by simp [sumSq]
    rw [h]
    exact add_nonneg (mul_self_nonneg a) ih

theorem sumSq_map_div (v : List K) (q : K) :
    sumSq (v.map (fun a => a / q)) = sumSq v / (q * q) := by
  induction v with
  | nil => simp [sumSq]
  | cons a t ih =>
    have h1 : sumSq ((a :: t).map (fun a => a / q)) =
        a / q * (a / q) + sumSq (t.map (fun a => a / q)) := by simp [sumSq]
    have h2 : sumSq (a :: t) = a * a + sumSq t := by simp [sumSq]
    rw [h1, h2, ih, div_mul_div_comm, div_add_div_same]

theorem sumSq_normalizeVec4 (sqrtFn : K → K) (v : List K)
    (hne : sumSq v ≠ 0)
    (hsq : sqrtFn (sumSq v) * sqrtFn (sumSq v) = sumSq v) :
    sumSq (normalizeVec4 sqrtFn v) = 1 := by
  have hpos : 0 < sumSq v := (sumSq_nonneg v).lt_of_ne (Ne.symm hne)
  unfold normalizeVec4
  rw [if_pos hpos, sumSq_map_div, hsq, div_self hne]

/-- C6: when all samples of a valid 4-channel input equal one fixed unit
quaternion at two timestamps, getRotation at any interior query time
(linear method; the cubic-spline backend rejects 2-sample channels)
returns that quaternion unchanged, and getAngularVelocity returns the
zero 4-vector: the per-sample normalization leaves the unit samples
untouched, each channel interpolates to its constant value (derivative
0), and the final renormalization fixes the unit tuple (and leaves the
zero tuple alone). -/
theorem C6_rotation_constant_quaternion :
    ∀ (K : Type) [LinearOrderedField K], ∀ (sqrtFn : K → K) (w x y z t0 t1 t : K),
      sqrtFn 1 = 1 →
      w * w + x * x + y * y + z * z = 1 →
      t0 < t1 → t0 < t → t < t1 →
      getRotation sqrtFn [[w, w], [x, x], [y, y], [z, z]] [t0, t1] t .linear =
        .ok [w, x, y, z] ∧
      getAngularVelocity sqrtFn [[w, w], [x, x], [y, y], [z, z]] [t0, t1] t
        .linear = .ok [0, 0, 0, 0] := by
  intro K _ sqrtFn w x y z t0 t1 t hsq hq h01 hlo hhi
  have hnr : normalizeRotations sqrtFn [[w, w], [x, x], [y, y], [z, z]] =
      [[w, w], [x, x], [y, y], [z, z]] := by
    unfold normalizeRotations
    simp only [List.getD_cons_zero, List.getD_cons_succ, List.length_cons,
      List.length_nil]
    rw [show (0 + 1 + 1 : ℕ) = 2 from rfl]
    unfold normalizeLoop
    simp only [List.getD_cons_zero, List.getD_cons_succ]
    rw [normalize4_unit sqrtFn w x y z hsq hq]
    simp only [List.set]
    unfold normalizeLoop
    simp only [List.getD_cons_zero, List.getD_cons_succ]
    rw [normalize4_unit sqrtFn w x y z hsq hq]
    simp only [List.set]
    unfold normalizeLoop
    rfl
  have hval : ∀ v : K, interpolate [v, v] [t0, t1] t .linear 0 = .ok v := by
    intro v
    rw [(interpolate_two_linear v v t0 t1 t h01 hlo.le hhi.le).1]
    rw [sub_self, mul_zero, add_zero]
  have hder : ∀ v : K, interpolate [v, v] [t0, t1] t .linear 1 = .ok 0 := by
    intro v
    rw [(interpolate_two_linear v v t0 t1 t h01 hlo.le hhi.le).2]
    rw [sub_self, zero_div]
  have hsum : sumSq [w, x, y, z] = 1 := by
    simp only [sumSq, List.map_cons, List.map_nil, List.sum_cons,
      List.sum_nil, add_zero]
    linear_combination hq
  constructor
  · unfold getRotation getRotationRaw
    rw [if_neg (by simp)]
    simp only [hnr, List.getD_cons_zero, List.getD_cons_succ]
    rw [hval w, hval x, hval y, hval z]
    show Except.ok (normalizeVec4 sqrtFn [w, x, y, z]) = _
    unfold normalizeVec4
    rw [hsum, if_pos zero_lt_one, hsq]
    simp [div_one]
  · unfold getAngularVelocity getAngularVelocityRaw
    rw [if_neg (by simp)]
    simp only [hnr, List.getD_cons_zero, List.getD_cons_succ]
    rw [hder w, hder x, hder y, hder z]
    show Except.ok (normalizeVec4 sqrtFn [0, 0, 0, 0]) = _
    unfold normalizeVec4
    rw [if_neg (by simp [sumSq])]

/-- C6 witness: the unit quaternion (3/5, 4/5, 0, 0) held constant on
timestamps [0, 10], queried at the interior time 5. -/
theorem C6_witness :
    getRotation (K := ℚ) ratSqrt
      [[3/5, 3/5], [4/5, 4/5], [0, 0], [0, 0]] [0, 10] 5 .linear =
      .ok [3/5, 4/5, 0, 0] ∧
    getAngularVelocity (K := ℚ) ratSqrt
      [[3/5, 3/5], [4/5, 4/5], [0, 0], [0, 0]] [0, 10] 5 .linear =
      .ok [0, 0, 0, 0] :=
  C6_rotation_constant_quaternion ℚ ratSqrt (3/5) (4/5) 0 0 0 10 5
    (by norm_num [ratSqrt, Nat.sqrt_one]) (by norm_num) (by norm_num)
    (by norm_num) (by norm_num)

/-- C7 (amended): whenever the interpolated 4-tuple (the value before
the final renormalization) has nonzero squared norm — and the square
root function satisfies its defining property at that squared norm —
the tuple returned by getRotation (resp. getAngularVelocity) has
Euclidean norm exactly 1 in exact arithmetic.  The claim as stated is
false: non-degenerate unit-norm samples can interpolate to the zero
tuple, which the final (guarded) normalization leaves at norm 0. -/
theorem C7_result_norm_one :
    ∀ (K : Type) [LinearOrderedField K], ∀ (sqrtFn : K → K)
      (rots : List (List K)) (times : List K) (time : K)
      (interp : interpolation),
      (∀ v, getRotationRaw sqrtFn rots times time interp = .ok v →
        sumSq v ≠ 0 → sqrtFn (sumSq v) * sqrtFn (sumSq v) = sumSq v →
        ∃ res, getRotation sqrtFn rots times time interp = .ok res ∧
          sumSq res = 1) ∧
      (∀ v, getAngularVelocityRaw sqrtFn rots times time interp = .ok v →
        sumSq v ≠ 0 → sqrtFn (sumSq v) * sqrtFn (sumSq v) = sumSq v →
        ∃ res, getAngularVelocity sqrtFn rots times time interp = .ok res ∧
          sumSq res = 1) := by
  intro K _ sqrtFn rots times time interp
  constructor
  · intro v hraw hne hsq
    refine ⟨normalizeVec4 sqrtFn v, ?_, sumSq_normalizeVec4 sqrtFn v hne hsq⟩
    unfold getRotation
    rw [hraw]
    rfl
  · intro v hraw hne hsq
    refine ⟨normalizeVec4 sqrtFn v, ?_, sumSq_normalizeVec4 sqrtFn v hne hsq⟩
    unfold getAngularVelocity
    rw [hraw]
    rfl

/-- C7 counterexample: the two samples (1,0,0,0) and (-1,0,0,0) are unit
quaternions (non-degenerate input), yet linear getRotation at the
midpoint returns the zero 4-tuple, whose norm is 0, not 1: componentwise
interpolation of unit quaternions can collapse to the zero vector and
the final (guarded) normalization leaves it unchanged. -/
theorem C7_cex :
    sumSq ([1, 0, 0, 0] : List ℚ) = 1 ∧
    sumSq ([-1, 0, 0, 0] : List ℚ) = 1 ∧
    getRotation (K := ℚ) ratSqrt [[1, -1], [0, 0], [0, 0], [0, 0]] [0, 1]
      (1/2) .linear = .ok [0, 0, 0, 0] ∧
    sumSq ([0, 0, 0, 0] : List ℚ) ≠ 1 := by
  refine ⟨by norm_num [sumSq], by norm_num [sumSq], ?_, by norm_num [sumSq]⟩
  have hraw : getRotationRaw (K := ℚ) ratSqrt [[1, -1], [0, 0], [0, 0], [0, 0]]
      [0, 1] (1/2) .linear = .ok [0, 0, 0, 0] := by
    norm_num [getRotationRaw, normalizeRotations, normalizeLoop,
      normalize4, ratSqrt, Nat.sqrt_one, interpolate, interpolateTr,
      gslEvalAt, gslInterpBsearch, bsearchAux, strictlyIncreasing, minSize]
    rfl
  unfold getRotation
  rw [hraw]
  show Except.ok (normalizeVec4 ratSqrt [0, 0, 0, 0]) = _
  norm_num [normalizeVec4, sumSq]

theorem ratSqrt_nine_twentyfifths : ratSqrt (9/25) = 3/5 := by
  have h9 : Nat.sqrt 9 = 3 := by
    rw [show (9 : ℕ) = 3 * 3 from rfl, Nat.sqrt_eq]
  have h25 : Nat.sqrt 25 = 5 := by
    rw [show (25 : ℕ) = 5 * 5 from rfl, Nat.sqrt_eq]
  have hnum : ((9 : ℚ)/25).num = 9 := by norm_num
  have hden : ((9 : ℚ)/25).den = 25 := by norm_num
  rw [ratSqrt, hnum, hden,
    show Int.toNat (9 : ℤ) = (9 : ℕ) from rfl, h9, h25]
  norm_num

theorem ratSqrt_sixtyfour_twentyfifths : ratSqrt (64/25) = 8/5 := by
  have h64 : Nat.sqrt 64 = 8 := by
    rw [show (64 : ℕ) = 8 * 8 from rfl, Nat.sqrt_eq]
  have h25 : Nat.sqrt 25 = 5 := by
    rw [show (25 : ℕ) = 5 * 5 from rfl, Nat.sqrt_eq]
  have hnum : ((64 : ℚ)/25).num = 64 := by norm_num
  have hden : ((64 : ℚ)/25).den = 25 := by norm_num
  rw [ratSqrt, hnum, hden,
    show Int.toNat (64 : ℤ) = (64 : ℕ) from rfl, h64, h25]
  norm_num

/-- C7 witness: the amended theorem applied to the samples (3/5,4/5,0,0)
and (3/5,-4/5,0,0) on timestamps [0,1] at the midpoint, where the raw
rotation tuple is (3/5,0,0,0) (squared norm 9/25) and the raw
angular-velocity tuple is (0,-8/5,0,0) (squared norm 64/25). -/
theorem C7_witness :
    (∃ res, getRotation (K := ℚ) ratSqrt
        [[3/5, 3/5], [4/5, -4/5], [0, 0], [0, 0]] [0, 1] (1/2) .linear =
        .ok res ∧ sumSq res = 1) ∧
    (∃ res, getAngularVelocity (K := ℚ) ratSqrt
        [[3/5, 3/5], [4/5, -4/5], [0, 0], [0, 0]] [0, 1] (1/2) .linear =
        .ok res ∧ sumSq res = 1) := by
  have h := C7_result_norm_one ℚ ratSqrt
    [[3/5, 3/5], [4/5, -4/5], [0, 0], [0, 0]] [0, 1] (1/2) .linear
  constructor
  · refine h.1 [3/5, 0, 0, 0] ?_ (by norm_num [sumSq]) ?_
    · norm_num [getRotationRaw, normalizeRotations, normalizeLoop,
        normalize4, ratSqrt, Nat.sqrt_one, interpolate, interpolateTr,
        gslEvalAt, gslInterpBsearch, bsearchAux, strictlyIncreasing, minSize]
      rfl
    · have hs : sumSq ([3/5, 0, 0, 0] : List ℚ) = 9/25 := by norm_num [sumSq]
      rw [hs, ratSqrt_nine_twentyfifths]
      norm_num
  · refine h.2 [0, -8/5, 0, 0] ?_ (by norm_num [sumSq]) ?_
    · norm_num [getAngularVelocityRaw, normalizeRotations, normalizeLoop,
        normalize4, ratSqrt, Nat.sqrt_one, interpolate, interpolateTr,
        gslEvalAt, gslInterpBsearch, bsearchAux, strictlyIncreasing, minSize]
      rfl
    · have hs : sumSq ([0, -8/5, 0, 0] : List ℚ) = 64/25 := by
        norm_num [sumSq]
      rw [hs, ratSqrt_sixtyfour_twentyfifths]
      norm_num

/-! ### Cubic-spline evaluation at a sample point -/

theorem gslEvalAt_spline_formula (times points : List K) (x : K) (j : ℕ)
    (hidx : gslInterpBsearch times x 0 (times.length - 1) = j)
    (hdx : 0 < times.getD (j + 1) 0 - times.getD j 0) :
    gslEvalAt .spline times points x 0 =
      points.getD j 0 + (x - times.getD j 0) *
        (((points.getD (j + 1) 0 - points.getD j 0) /
            (times.getD (j + 1) 0 - times.getD j 0) -
          (times.getD (j + 1) 0 - times.getD j 0) *
            ((csplineC times points).getD (j + 1) 0 +
              2 * (csplineC times points).getD j 0) / 3) +
          (x - times.getD j 0) *
            ((csplineC times points).getD j 0 +
              (x - times.getD j 0) *
                (((csplineC times points).getD (j + 1) 0 -
                  (csplineC times points).getD j 0) /
                  (3 * (times.getD (j + 1) 0 - times.getD j 0))))) := by
  unfold gslEvalAt
  simp only [hidx]
  rw [if_pos hdx]

/-- C9 (amended): for every valid channel of n ≥ 3 samples with
strictly increasing timestamps, cubic-spline interpolation with
derivative order 0 queried at the i-th timestamp returns exactly the
i-th sample value; for n = 2 the cubic-spline backend rejects the
channel outright (insufficient points for the method). -/
theorem C9_cspline_through_samples :
    ∀ (K : Type) [LinearOrderedField K], ∀ (points times : List K) (i : ℕ),
      strictlyIncreasing times = true →
      points.length = times.length →
      3 ≤ points.length →
      i < points.length →
      interpolate points times (times.getD i 0) .spline 0 =
        .ok (points.getD i 0) := by
  intro K _ points times i hinc hlen h3 hi
  have hn : 3 ≤ times.length := hlen ▸ h3
  have hne : times ≠ [] := by
    intro h
    rw [h] at hn
    simp at hn
  have hin : i < times.length := hlen ▸ hi
  have hlo : ¬ times.getD i 0 < times.headD 0 := by
    rw [headD_eq_getD times hne 0 0]
    exact not_lt.2 (strictlyIncreasing_getD_le hinc 0 i (Nat.zero_le i) hin)
  have hhi : ¬ times.getLastD 0 < times.getD i 0 := by
    rw [getLastD_eq_getD times hne 0 0]
    exact not_lt.2 (strictlyIncreasing_getD_le hinc i (times.length - 1)
      (by omega) (by omega))
  rw [interpolate_ok (by omega) hlen hlo hhi (by simp [minSize]; omega) hinc
    (Or.inl rfl)]
  simp only [Int.toNat_zero]
  by_cases hcase : i < times.length - 1
  · -- interior sample (or the first one): the bracketing interval starts
    -- at i, so delx = 0 and the piecewise cubic returns y_i directly
    have hidx : gslInterpBsearch times (times.getD i 0) 0 (times.length - 1) = i := by
      unfold gslInterpBsearch
      refine bsearchAux_eq_of_mid_iff (times.length - 1 - 0) 0 (times.length - 1)
        (le_refl _) (Nat.zero_le i) hcase ?_
      intro m hm0 hmn
      constructor
      · intro hxm
        by_contra hc
        exact absurd hxm (not_lt.2 (strictlyIncreasing_getD_le hinc m i
          (by omega) hin))
      · intro him
        exact strictlyIncreasing_getD_lt hinc i m him (by omega)
    have hdx : (0 : K) < times.getD (i + 1) 0 - times.getD i 0 :=
      sub_pos.2 (strictlyIncreasing_adj hinc i (by omega))
    rw [gslEvalAt_spline_formula times points (times.getD i 0) i hidx hdx,
      sub_self, zero_mul, add_zero]
  · -- the last sample: the bracketing interval is [n-2, n-1] and the
    -- b/c/d coefficient algebra collapses to y_(n-1)
    have hieq : i = times.length - 1 := by omega
    subst hieq
    have hall : ∀ m, 0 < m → m < times.length - 1 →
        ¬ times.getD (times.length - 1) 0 < times.getD m 0 := by
      intro m hm0 hmn
      exact not_lt.2 (strictlyIncreasing_getD_le hinc m (times.length - 1)
        (by omega) (by omega))
    have hidx : gslInterpBsearch times (times.getD (times.length - 1) 0) 0
        (times.length - 1) = times.length - 2 := by
      unfold gslInterpBsearch
      rw [bsearchAux_eq_of_all_ge (times.length - 1 - 0) 0 (times.length - 1)
        (le_refl _) (by omega) hall]
      omega
    have hsucc : times.length - 2 + 1 = times.length - 1 := by omega
    have hdx : (0 : K) < times.getD (times.length - 2 + 1) 0 -
        times.getD (times.length - 2) 0 :=
      sub_pos.2 (strictlyIncreasing_adj hinc (times.length - 2) (by omega))
    rw [gslEvalAt_spline_formula times points (times.getD (times.length - 1) 0)
      (times.length - 2) hidx hdx]
    rw [hsucc] at hdx ⊢
    have hBA : times.getD (times.length - 1) 0 -
        times.getD (times.length - 2) 0 ≠ 0 := ne_of_gt hdx
    congr 1
    revert hBA
    generalize times.getD (times.length - 2) 0 = A
    generalize times.getD (times.length - 1) 0 = B
    generalize points.getD (times.length - 2) 0 = yA
    generalize points.getD (times.length - 1) 0 = yB
    generalize (csplineC times points).getD (times.length - 2) 0 = cA
    generalize (csplineC times points).getD (times.length - 1) 0 = cB
    intro hBA
    field_simp
    ring

/-- C9 counterexample: a valid 2-sample channel (the claim quantifies
over n ≥ 2) queried with the cubic-spline method at its own first
timestamp does not return the sample value; the GSL backend rejects the
channel (cspline needs at least 3 points). -/
theorem C9_cex :
    interpolate (K := ℚ) [5, 7] [0, 1] 0 .spline 0 =
      .error .gslInsufficientPoints ∧
    interpolate (K := ℚ) [5, 7] [0, 1] 0 .spline 0 ≠ .ok 5 := by decide

/-- C9 witness: the amended theorem applied to the 3-sample channel
values [1,2,4] at timestamps [0,1,3], sample index 1. -/
theorem C9_witness :
    interpolate (K := ℚ) [1, 2, 4] [0, 1, 3] 1 .spline 0 = .ok 2 :=
  C9_cspline_through_samples ℚ [1, 2, 4] [0, 1, 3] 1 (by decide) (by decide)
    (by decide) (by decide)

end ale
